import Mathlib

set_option linter.unusedVariables false

/-!
Verification of the shared DNS-01 challenge-provider core of this repository:
authoritative-zone resolution (`FindBestZoneForFQDN` in the micetro package),
session login caching (`Client.login` / `Client.doRequest`), record tracking in
the `recordIDs` maps of the providers, the `Present`/`CleanUp` orchestration of the
digitalocean, ovh and bluecatmicetro providers, and construction-time
configuration validation.

Go strings are embedded as `List Char` (`Str`); Go maps from token to record
identifier as functions `Str → Option Int`; the remote DNS backend's record
table as a `List` of record structures, with the HTTP list/create/delete calls
modelled by their documented effect on that table.  Calls into code outside
this repository (`dns01.GetChallengeInfo`, `dns01.FindZoneByFqdn`,
`dns01.ExtractSubDomain`, the go-ovh SDK client constructors) are passed in as
oracle arguments: the provider code only ever inspects their results.
-/

/-- Go strings, embedded as lists of characters. -/
abbrev Str := List Char

/-- Literal conversion helper from Lean string literals to `Str`. -/
def str (s : String) : Str := s.data

namespace micetro

/-- `strings.HasSuffix s suffix`. -/
def hasSuffix (s suffix : Str) : Bool := suffix.isSuffixOf s

/-- `strings.TrimSuffix s suffix`: removes one trailing occurrence of
`suffix` when present, otherwise returns `s` unchanged. -/
def trimSuffix (s suffix : Str) : Str :=
  if suffix.isSuffixOf s then s.take (s.length - suffix.length) else s

/-- The comparison passed to `sort.SliceStable` in `FindBestZoneForFQDN`:
zone `a` comes before zone `b` when `a` is at least as long. -/
def byLenDesc (a b : Str) : Prop := b.length ≤ a.length

instance : DecidableRel byLenDesc := fun a b => Nat.decLe b.length a.length

instance : IsTotal Str byLenDesc :=
  ⟨fun a b => Nat.le_total b.length a.length⟩

instance : IsTrans Str byLenDesc :=
  ⟨fun _ _ _ h1 h2 => Nat.le_trans h2 h1⟩

/-- The scan over the sorted candidate list inside `FindBestZoneForFQDN`:
the first zone that is a suffix of `f` wins; the relative name is `f` with
`"." ++ zone` trimmed, with the empty result replaced by `"@"`. -/
def matchZone (f : Str) : List Str → Str × Str
  | [] => ([], [])
  | z :: zs =>
    if hasSuffix f z then
      let rel := trimSuffix f ('.' :: z)
      (z, if rel = [] then ['@'] else rel)
    else matchZone f zs

/-- `FindBestZoneForFQDN` (micetro package).  The zone catalog argument is the
outcome of `c.listZones()`: `none` embeds a failed listing call (`err ≠ nil`).
The FQDN is normalised by trimming a trailing dot; the zones are stably sorted
by descending length and scanned for the first suffix match; on a listing
error, an empty catalog, or no match, `("", "")` is returned. -/
def FindBestZoneForFQDN (zonesResult : Option (List Str)) (fqdn : Str) : Str × Str :=
  let f := trimSuffix fqdn ['.']
  match zonesResult with
  | none => ([], [])
  | some zones =>
    if zones.isEmpty then ([], [])
    else matchZone f (zones.insertionSort byLenDesc)

/-- The FQDN targeted by `Client.AddTXTRecord`/`Client.DeleteTXTRecord`:
a name already ending in a dot is used as is, otherwise
`name + "." + zone + "."` is formed. -/
def recordFQDN (zone name : Str) : Str :=
  if hasSuffix name ['.'] then name else name ++ '.' :: zone ++ ['.']

/-- `Client.DeleteTXTRecord` (micetro package), given the HTTP status code of
the backend's answer to the DELETE request on the record's FQDN: any status
of 300 or above other than 404 (not found) is an error; everything else —
including 404 — is success.  The error carries the offending status. -/
def DeleteTXTRecord (zone name : Str) (status : Nat) : Except Nat Unit :=
  let _fq := recordFQDN zone name
  if 300 ≤ status ∧ status ≠ 404 then Except.error status else Except.ok ()

end micetro

/-- The `recordIDs map[string]int` field shared by the digitalocean and ovh
providers, embedded extensionally as a function from challenge token to an
optional record identifier. -/
def RecordStore := Str → Option Int

/-- Go map assignment `m[token] = id`. -/
def storeInsert (st : RecordStore) (token : Str) (id : Int) : RecordStore :=
  fun k => if k = token then some id else st k

/-- Go map deletion `delete(m, token)`. -/
def storeErase (st : RecordStore) (token : Str) : RecordStore :=
  fun k => if k = token then none else st k

/-- The freshly made empty map `make(map[string]int)`. -/
def emptyStore : RecordStore := fun _ => none

namespace digitalocean

/-- A DNS record as the digitalocean provider sees it: backend-assigned
identifier, record type and record name. -/
structure Record where
  id : Int
  type : Str
  name : Str
deriving DecidableEq

/-- Error outcomes of the digitalocean provider operations. -/
inductive ProviderError where
  | zoneError
  | backendError
deriving DecidableEq

/-- `client.RemoveTxtRecord`: the backend deletes the record carrying the
given identifier from the record table of the zone. -/
def removeTxtRecord (records : List Record) (id : Int) : List Record :=
  records.filter fun r => decide (r.id ≠ id)

/-- `DNSProvider.Present` (digitalocean provider, `part_000`).  `zoneResult`
is the outcome of `dns01.FindZoneByFqdn` and `addResult` the outcome of
`client.AddTxtRecord` (the identifier of the created record on success); on
success the identifier is stored in the record map under the token. -/
def Present (zoneResult : Option Str) (addResult : Except Unit Int)
    (st : RecordStore) (token : Str) : Except ProviderError RecordStore :=
  match zoneResult with
  | none => .error .zoneError
  | some _ =>
    match addResult with
    | .error _ => .error .backendError
    | .ok id => .ok (storeInsert st token id)

/-- The fallback loop of `DNSProvider.CleanUp`: iterate over the listed
snapshot and delete from the backend every TXT record whose name equals the
effective FQDN. -/
def scanDelete (effectiveFQDN : Str) : List Record → List Record → List Record
  | [], backend => backend
  | r :: rs, backend =>
    if r.type = str "TXT" ∧ r.name = effectiveFQDN then
      scanDelete effectiveFQDN rs (removeTxtRecord backend r.id)
    else scanDelete effectiveFQDN rs backend

/-- `DNSProvider.CleanUp` (digitalocean provider, `part_000`): resolve the
zone; if the token has a tracked identifier delete that record and drop the
map entry; then list the records of the zone and delete every TXT record whose
name matches the effective FQDN. -/
def CleanUp (zoneResult : Option Str) (effectiveFQDN : Str) (st : RecordStore)
    (token : Str) (backend : List Record) :
    Except ProviderError (RecordStore × List Record) :=
  match zoneResult with
  | none => .error .zoneError
  | some _ =>
    let p :=
      match st token with
      | some id => (storeErase st token, removeTxtRecord backend id)
      | none => (st, backend)
    .ok (p.1, scanDelete effectiveFQDN p.2 p.2)

end digitalocean

namespace ovh

/-- A DNS record as the ovh provider sees it. -/
structure Record where
  id : Int
  fieldType : Str
  subDomain : Str
deriving DecidableEq

/-- The authentication-relevant part of the ovh provider `Config`. -/
structure Config where
  applicationKey : Str
  applicationSecret : Str
  consumerKey : Str
  oauth2 : Option (Str × Str)
  accessToken : Str

/-- `Config.hasAppKeyAuth`: any of the three application-key fields set. -/
def hasAppKeyAuth (c : Config) : Bool :=
  !c.applicationKey.isEmpty || !c.applicationSecret.isEmpty || !c.consumerKey.isEmpty

/-- Number of authentication schemes the configuration selects, counting the
application-key triple as one scheme. -/
def schemeCount (c : Config) : Nat :=
  (if hasAppKeyAuth c then 1 else 0) + (if c.oauth2.isSome then 1 else 0) +
    (if c.accessToken.isEmpty then 0 else 1)

/-- `NewDNSProviderConfig` (ovh provider): reject a nil configuration and any
combination of two or more authentication schemes, in the order the source
checks them; otherwise build the SDK client (`newClient`, outside this
repository — its outcome is the `clientResult` oracle). -/
def NewDNSProviderConfig (config : Option Config) (clientResult : Except Unit Unit) :
    Except String Unit :=
  match config with
  | none => Except.error "ovh: the configuration of the DNS provider is nil"
  | some c =>
    if c.oauth2.isSome && hasAppKeyAuth c && !c.accessToken.isEmpty then
      Except.error "ovh: cannot use multiple authentication systems (ApplicationKey, OAuth2, Access Token)"
    else if c.oauth2.isSome && !c.accessToken.isEmpty then
      Except.error "ovh: cannot use multiple authentication systems (OAuth2, Access Token)"
    else if c.oauth2.isSome && hasAppKeyAuth c then
      Except.error "ovh: cannot use multiple authentication systems (ApplicationKey, OAuth2)"
    else if hasAppKeyAuth c && !c.accessToken.isEmpty then
      Except.error "ovh: cannot use multiple authentication systems (ApplicationKey, Access Token)"
    else
      match clientResult with
      | .error _ => Except.error "ovh: new client failed"
      | .ok _ => Except.ok ()

/-- Error outcomes of the ovh provider operations. -/
inductive OvhError where
  | zoneError
  | subDomainError
  | createError
  | refreshError
  | listError
deriving DecidableEq

/-- `DNSProvider.Present` (ovh provider): resolve the zone
(`dns01.FindZoneByFqdn`, oracle) and the sub-domain
(`dns01.ExtractSubDomain`, oracle), create the TXT record (`client.Post`,
oracle returning the identifier of the new record), refresh the zone, and only
then store the identifier under the token. -/
def Present (zoneResult subDomainResult : Option Str)
    (createResult : Except Unit Int) (refreshResult : Except Unit Unit)
    (st : RecordStore) (token : Str) : Except OvhError RecordStore :=
  match zoneResult with
  | none => .error .zoneError
  | some _ =>
    match subDomainResult with
    | none => .error .subDomainError
    | some _ =>
      match createResult with
      | .error _ => .error .createError
      | .ok id =>
        match refreshResult with
        | .error _ => .error .refreshError
        | .ok _ => .ok (storeInsert st token id)

/-- The deletion loop of the ovh `DNSProvider.CleanUp`: for every listed TXT
record whose sub-domain matches, delete it from the backend by identifier. -/
def scanDelete (subDomain : Str) : List Record → List Record → List Record
  | [], recs => recs
  | r :: rs, recs =>
    if r.subDomain = subDomain ∧ r.fieldType = str "TXT" then
      scanDelete subDomain rs (recs.filter fun x => decide (x.id ≠ r.id))
    else scanDelete subDomain rs recs

/-- `DNSProvider.CleanUp` (ovh provider): resolve zone and sub-domain, list
the TXT records of the zone (`listTXTRecords` filters to `FieldType == "TXT"`),
delete every record matching the sub-domain, and refresh the zone.  The
tracked `recordIDs` map is neither consulted nor modified. -/
def CleanUp (zoneResult subDomainResult : Option Str)
    (refreshResult : Except Unit Unit) (st : RecordStore) (token : Str)
    (records : List Record) : Except OvhError (RecordStore × List Record) :=
  match zoneResult with
  | none => .error .zoneError
  | some _ =>
    match subDomainResult with
    | none => .error .subDomainError
    | some sub =>
      let txts := records.filter fun r => decide (r.fieldType = str "TXT")
      let records' := scanDelete sub txts records
      match refreshResult with
      | .error _ => .error .refreshError
      | .ok _ => .ok (st, records')

end ovh

namespace bluecatmicetro

/-- The error outcomes of `DNSProvider.Present`/`CleanUp` in the
bluecatmicetro package: the wrapped `ErrZoneNotFound` (carrying the domain),
or a backend error propagated from the micetro client. -/
inductive ProviderError where
  | zoneNotFound (domain : Str)
  | backend
deriving DecidableEq

/-- `DNSProvider.Present` (bluecatmicetro package).  `zonesResult` is the
outcome of the zone-listing call made inside `FindBestZoneForFQDN`;
`addResult` is the outcome of `client.AddTXTRecord` on the resolved zone
(the provider returns it unchanged). -/
def Present (zonesResult : Option (List Str)) (effectiveFQDN domain : Str)
    (addResult : Except Unit Unit) : Except ProviderError Unit :=
  let zr := micetro.FindBestZoneForFQDN zonesResult effectiveFQDN
  if zr.1 = [] then .error (.zoneNotFound domain)
  else
    match addResult with
    | .ok _ => .ok ()
    | .error _ => .error .backend

/-- `NewDNSProviderConfig` (bluecatmicetro package): require a nonempty
endpoint and reject only configurations where neither an API key nor a
complete username/password pair is given. -/
def NewDNSProviderConfig (endpoint apiKey username password : Str) :
    Except String Unit :=
  if endpoint.isEmpty then
    Except.error "bluecatmicetro: endpoint must be set"
  else if apiKey.isEmpty && (username.isEmpty || password.isEmpty) then
    Except.error "bluecatmicetro: provide either an API key or a username and password"
  else Except.ok ()

end bluecatmicetro

namespace login

/-- The observable state of a micetro `Client` shared by two concurrent
goroutines racing through `Client.login` / `Client.doRequest`, plus the
bookkeeping needed to state the claim: who holds `c.mu`, the cached
`c.sessionKey`, which thread has performed the HTTP login exchange, the
program counter of each thread through the login body, and the credential
that the `doRequest` of each thread reads after its `login()` returns. -/
structure State where
  lock : Option Bool
  key : Str
  exch : Bool → Bool
  pc : Bool → Nat
  obs : Bool → Str

/-- Pointwise update of a two-valued map. -/
def upd {α : Type} (f : Bool → α) (t : Bool) (v : α) : Bool → α :=
  fun x => if x = t then v else f x

/-- One atomic instruction of thread `t` running `login()` followed by the
credential read in `doRequest`; a thread blocked on the mutex or already done
leaves the state unchanged.  The program counters follow the source:
0 `c.mu.Lock()`; 1 the `c.sessionKey != ""` early-return test; 2 the HTTP
login exchange (whose successful response body is `resp`); 3 the cache write
`c.sessionKey = resp`; 4 `c.mu.Unlock()` (deferred); 5 `doRequest` reading
`c.sessionKey` into the Authorization header; 6 done. -/
def tryStep (resp : Str) (t : Bool) (s : State) : State :=
  if s.pc t = 0 then
    match s.lock with
    | none => { s with lock := some t, pc := upd s.pc t 1 }
    | some _ => s
  else if s.pc t = 1 then
    if s.key = [] then { s with pc := upd s.pc t 2 }
    else { s with pc := upd s.pc t 4 }
  else if s.pc t = 2 then { s with exch := upd s.exch t true, pc := upd s.pc t 3 }
  else if s.pc t = 3 then { s with key := resp, pc := upd s.pc t 4 }
  else if s.pc t = 4 then { s with lock := none, pc := upd s.pc t 5 }
  else if s.pc t = 5 then { s with obs := upd s.obs t s.key, pc := upd s.pc t 6 }
  else s

/-- Run an arbitrary interleaving of the two threads, given as the schedule
of which thread takes the next instruction. -/
def exec (resp : Str) (sched : List Bool) (s : State) : State :=
  sched.foldl (fun s t => tryStep resp t s) s

/-- The state of a fresh `Client`: empty credential cache, mutex free,
neither thread started. -/
def initState : State :=
  { lock := none, key := [], exch := fun _ => false, pc := fun _ => 0,
    obs := fun _ => [] }

/-- Number of login exchanges performed so far. -/
def exchCount (s : State) : Nat :=
  (if s.exch true then 1 else 0) + (if s.exch false then 1 else 0)

/-- The inductive invariant of the two-thread login race, for a successful
login response `resp`: lock discipline over the critical section (pcs 1–4),
the cache only ever holds `""` or `resp`, threads inside the check/exchange
window see an empty cache, threads past the critical section see `resp`, a
nonempty cache was written by a thread that finished its exchange, at most
one thread ever exchanges, and a finished thread observed `resp`. -/
structure Inv (resp : Str) (s : State) : Prop where
  hcs : ∀ t, 1 ≤ s.pc t → s.pc t ≤ 4 → s.lock = some t
  hkey : s.key = [] ∨ s.key = resp
  hexch_pc : ∀ t, s.exch t = true → 3 ≤ s.pc t
  hwindow : ∀ t, s.pc t = 2 ∨ s.pc t = 3 → s.key = []
  hpast : ∀ t, 4 ≤ s.pc t → s.key = resp
  hwrote : s.key ≠ [] → ∃ t, s.exch t = true ∧ 4 ≤ s.pc t
  hpc3 : ∀ t, s.pc t = 3 → s.exch t = true
  honce : ¬(s.exch true = true ∧ s.exch false = true)
  hobs : ∀ t, s.pc t = 6 → s.obs t = resp

end login

namespace micetro

/-- When some element of the candidate list is a suffix of `f` and the list is
sorted by descending length, the scan returns a suffix of `f` that belongs to
the list and has maximal length among all suffix candidates. -/
lemma matchZone_mem_max (f : Str) (l : List Str) (hs : l.Sorted byLenDesc)
    (hex : ∃ w ∈ l, hasSuffix f w = true) :
    (matchZone f l).1 ∈ l ∧ hasSuffix f (matchZone f l).1 = true ∧
      ∀ z' ∈ l, hasSuffix f z' = true → z'.length ≤ (matchZone f l).1.length := by
  induction l with
  | nil => obtain ⟨w, hw, _⟩ := hex; cases hw
  | cons z zs ih =>
    rw [List.sorted_cons] at hs
    by_cases h : hasSuffix f z = true
    · refine ⟨?_, ?_, ?_⟩
      · simp [matchZone, h]
      · simp [matchZone, h]
      · intro z' hz' _
        have h1 : (matchZone f (z :: zs)).1 = z := by simp [matchZone, h]
        rw [h1]
        rcases List.mem_cons.mp hz' with rfl | hmem
        · exact Nat.le_refl _
        · exact hs.1 z' hmem
    · have h0 : hasSuffix f z = false := by
        cases hfz : hasSuffix f z with
        | false => rfl
        | true => exact absurd hfz h
      have hrec : matchZone f (z :: zs) = matchZone f zs := by
        simp [matchZone, h0]
      obtain ⟨w, hw, hsw⟩ := hex
      have hwzs : w ∈ zs := by
        rcases List.mem_cons.mp hw with rfl | hmem
        · rw [hsw] at h0; cases h0
        · exact hmem
      obtain ⟨m1, m2, m3⟩ := ih hs.2 ⟨w, hwzs, hsw⟩
      rw [hrec]
      refine ⟨List.mem_cons_of_mem _ m1, m2, ?_⟩
      intro z' hz' hsz'
      rcases List.mem_cons.mp hz' with rfl | hmem
      · rw [hsz'] at h0; cases h0
      · exact m3 z' hmem hsz'

/-- When no element of the candidate list is a suffix of `f`, the scan falls
through and returns the empty pair. -/
lemma matchZone_eq_empty (f : Str) (l : List Str)
    (h : ∀ w ∈ l, hasSuffix f w = false) : matchZone f l = ([], []) := by
  induction l with
  | nil => rfl
  | cons z zs ih =>
    have hz := h z (List.mem_cons_self z zs)
    simp only [matchZone, hz]
    simp only [Bool.false_eq_true, if_false]
    exact ih fun w hw => h w (List.mem_cons_of_mem _ hw)

/-- A nonempty catalog with a suffix match makes `FindBestZoneForFQDN` return
the longest matching zone of the catalog. -/
lemma findBestZone_max (zones : List Str) (fqdn : Str) (z : Str)
    (hz : z ∈ zones) (hsuf : hasSuffix (trimSuffix fqdn ['.']) z = true) :
    (FindBestZoneForFQDN (some zones) fqdn).1 ∈ zones ∧
      hasSuffix (trimSuffix fqdn ['.']) (FindBestZoneForFQDN (some zones) fqdn).1 = true ∧
      ∀ z' ∈ zones, hasSuffix (trimSuffix fqdn ['.']) z' = true →
        z'.length ≤ (FindBestZoneForFQDN (some zones) fqdn).1.length := by
  have hne : zones ≠ [] := List.ne_nil_of_mem hz
  have hemp : zones.isEmpty = false := by
    cases zones with
    | nil => exact absurd rfl hne
    | cons a l => rfl
  set f := trimSuffix fqdn ['.'] with hf
  have hperm : List.Perm (zones.insertionSort byLenDesc) zones :=
    List.perm_insertionSort _ _
  have hsorted : (zones.insertionSort byLenDesc).Sorted byLenDesc :=
    List.sorted_insertionSort _ _
  have hex : ∃ w ∈ zones.insertionSort byLenDesc, hasSuffix f w = true :=
    ⟨z, hperm.mem_iff.mpr hz, hsuf⟩
  obtain ⟨m1, m2, m3⟩ := matchZone_mem_max f _ hsorted hex
  have heq : FindBestZoneForFQDN (some zones) fqdn =
      matchZone f (zones.insertionSort byLenDesc) := by
    simp only [FindBestZoneForFQDN, hemp, Bool.false_eq_true, if_false, hf]
  rw [heq]
  exact ⟨hperm.mem_iff.mp m1, m2,
    fun z' hz' hs' => m3 z' (hperm.mem_iff.mpr hz') hs'⟩

/-- Characterisation of the empty-zone outcome on a successfully fetched
catalog that does not contain the empty-string zone: the zone component is
empty exactly when no catalog entry is a suffix of the trimmed FQDN. -/
lemma findBestZone_empty_iff (zones : List Str) (fqdn : Str) (hz : [] ∉ zones) :
    (FindBestZoneForFQDN (some zones) fqdn).1 = [] ↔
      ∀ w ∈ zones, hasSuffix (trimSuffix fqdn ['.']) w = false := by
  constructor
  · intro hempty
    by_contra hnot
    push_neg at hnot
    obtain ⟨w, hw, hsw⟩ := hnot
    have hsw' : hasSuffix (trimSuffix fqdn ['.']) w = true := by
      cases h : hasSuffix (trimSuffix fqdn ['.']) w with
      | false => exact absurd h hsw
      | true => rfl
    have := (findBestZone_max zones fqdn w hw hsw').1
    rw [hempty] at this
    exact hz this
  · intro hall
    cases hzs : zones.isEmpty with
    | true =>
      simp only [FindBestZoneForFQDN, hzs, if_true]
    | false =>
      have hperm : List.Perm (zones.insertionSort byLenDesc) zones :=
        List.perm_insertionSort _ _
      have := matchZone_eq_empty (trimSuffix fqdn ['.']) (zones.insertionSort byLenDesc)
        (fun w hw => hall w (hperm.mem_iff.mp hw))
      simp only [FindBestZoneForFQDN, hzs, Bool.false_eq_true, if_false, this]

end micetro

open micetro in
/-- C1: zone resolution is longest-suffix-wins — after stripping a trailing
dot from the FQDN, the returned zone is a catalog entry that is a suffix of
the FQDN of maximal length among all catalog entries that are suffixes; in
particular, for catalog `{example.com, dev.example.com}` and FQDN
`x.dev.example.com`, the resolved zone is `dev.example.com` with relative
label `x`. -/
theorem zone_resolution_longest_suffix_wins :
    (∀ (zones : List Str) (fqdn : Str) (z : Str), z ∈ zones →
      hasSuffix (trimSuffix fqdn ['.']) z = true →
      (FindBestZoneForFQDN (some zones) fqdn).1 ∈ zones ∧
        hasSuffix (trimSuffix fqdn ['.']) (FindBestZoneForFQDN (some zones) fqdn).1 = true ∧
        ∀ z' ∈ zones, hasSuffix (trimSuffix fqdn ['.']) z' = true →
          z'.length ≤ (FindBestZoneForFQDN (some zones) fqdn).1.length) ∧
    FindBestZoneForFQDN (some [str "example.com", str "dev.example.com"])
      (str "x.dev.example.com") = (str "dev.example.com", str "x") :=
  ⟨fun zones fqdn z hz hsuf => findBestZone_max zones fqdn z hz hsuf, by decide⟩

open micetro in
/-- Witness for C1 at the concrete catalog `{example.com, dev.example.com}`
and FQDN `x.dev.example.com`. -/
theorem zone_resolution_longest_suffix_wins_witness :
    (FindBestZoneForFQDN (some [str "example.com", str "dev.example.com"])
        (str "x.dev.example.com")).1 ∈ [str "example.com", str "dev.example.com"] ∧
      hasSuffix (trimSuffix (str "x.dev.example.com") ['.'])
        (FindBestZoneForFQDN (some [str "example.com", str "dev.example.com"])
          (str "x.dev.example.com")).1 = true ∧
      (str "example.com").length ≤
        (FindBestZoneForFQDN (some [str "example.com", str "dev.example.com"])
          (str "x.dev.example.com")).1.length :=
  have h := zone_resolution_longest_suffix_wins.1
    [str "example.com", str "dev.example.com"] (str "x.dev.example.com")
    (str "dev.example.com") (by decide) (by decide)
  ⟨h.1, h.2.1, h.2.2 (str "example.com") (by decide) (by decide)⟩

open micetro in
/-- C10: zone suffix matching is plain string-suffix matching, not
label-boundary matching — when the zone of a singleton catalog is a string suffix
of the trimmed FQDN but `"." ++ zone` is not, the zone is still returned and
the relative label is the entire trimmed FQDN unchanged; in particular,
catalog `{example.com}` with FQDN `notexample.com` resolves to zone
`example.com` with label `notexample.com`. -/
theorem suffix_match_ignores_label_boundaries :
    (∀ (z fqdn : Str), z ≠ [] →
      hasSuffix (trimSuffix fqdn ['.']) z = true →
      hasSuffix (trimSuffix fqdn ['.']) ('.' :: z) = false →
      FindBestZoneForFQDN (some [z]) fqdn = (z, trimSuffix fqdn ['.'])) ∧
    FindBestZoneForFQDN (some [str "example.com"]) (str "notexample.com") =
      (str "example.com", str "notexample.com") := by
  constructor
  · intro z fqdn hzne hz hdot
    set f := trimSuffix fqdn ['.'] with hf
    have hfsuf : ('.' :: z).isSuffixOf f = false := hdot
    have hrel : trimSuffix f ('.' :: z) = f := by
      simp only [trimSuffix, hfsuf, Bool.false_eq_true, if_false]
    have hfne : f ≠ [] := by
      intro h0
      have hzf : z <:+ f := List.isSuffixOf_iff_suffix.mp hz
      rw [h0] at hzf
      exact hzne (List.suffix_nil.mp hzf)
    have h1 : FindBestZoneForFQDN (some [z]) fqdn = matchZone f [z] := by
      simp only [FindBestZoneForFQDN, List.insertionSort, List.orderedInsert,
        List.isEmpty_cons, Bool.false_eq_true, if_false, hf]
    rw [h1]
    simp only [matchZone, hz, if_true, hrel, hfne, if_false]
  · decide

open micetro in
/-- Witness for C10 at zone `example.com` and FQDN `notexample.com`. -/
theorem suffix_match_ignores_label_boundaries_witness :
    FindBestZoneForFQDN (some [str "example.com"]) (str "notexample.com") =
      (str "example.com", trimSuffix (str "notexample.com") ['.']) :=
  suffix_match_ignores_label_boundaries.1 (str "example.com")
    (str "notexample.com") (by decide) (by decide) (by decide)

open micetro in
/-- C2 (code bug): for the FQDN `example.com.` whose trailing-dot
normalisation equals the catalog zone `example.com`, `FindBestZoneForFQDN`
returns the zone itself as the relative label, not the apex sentinel `@` the
spec requires: `strings.TrimSuffix(fqdn, "."+zone)` leaves `fqdn` unchanged
when `fqdn == zone`, so the `rel == "" → "@"` branch never fires there. -/
theorem apex_fqdn_label_is_zone_not_at_sign :
    FindBestZoneForFQDN (some [str "example.com"]) (str "example.com.") =
      (str "example.com", str "example.com") ∧
    (FindBestZoneForFQDN (some [str "example.com"]) (str "example.com.")).2 ≠
      str "@" := by
  exact ⟨by decide, by decide⟩

/-- C8 counterexample: a failed zone-listing call (embedded as `none`) makes
`FindBestZoneForFQDN` return an empty zone, which `Present` reports as the
`ErrZoneNotFound` failure — a transient listing error is therefore folded
into ZoneNotFound rather than kept distinguishable. -/
theorem listing_failure_reported_as_zone_not_found :
    bluecatmicetro.Present none (str "x.example.com") (str "x.example.com")
        (Except.ok ()) =
      Except.error (bluecatmicetro.ProviderError.zoneNotFound (str "x.example.com")) :=
  rfl

open micetro bluecatmicetro in
/-- C8 (amended): `Present` reports ZoneNotFound exactly when zone resolution
yields an empty zone.  Over a successfully fetched catalog (without the empty
zone name) this is exactly "no catalog entry is a suffix of the target name";
but a failure of the zone-listing call is folded into the very same
ZoneNotFound outcome instead of surfacing as a distinct transient error. -/
theorem zone_not_found_characterisation :
    (∀ (zones : List Str) (fqdn domain : Str) (r : Except Unit Unit),
      [] ∉ zones →
      ((∃ d, Present (some zones) fqdn domain r =
          Except.error (ProviderError.zoneNotFound d)) ↔
        ∀ w ∈ zones, hasSuffix (trimSuffix fqdn ['.']) w = false)) ∧
    (∀ (fqdn domain : Str) (r : Except Unit Unit),
      ∃ d, Present none fqdn domain r =
        Except.error (ProviderError.zoneNotFound d)) := by
  constructor
  · intro zones fqdn domain r hz
    by_cases h : (FindBestZoneForFQDN (some zones) fqdn).1 = []
    · constructor
      · intro _
        exact (findBestZone_empty_iff zones fqdn hz).mp h
      · intro _
        exact ⟨domain, by simp [Present, h]⟩
    · constructor
      · rintro ⟨d, hd⟩
        exfalso
        simp only [Present, h, if_false] at hd
        cases r with
        | ok v => simp at hd
        | error e => simp at hd
      · intro hall
        exact absurd ((findBestZone_empty_iff zones fqdn hz).mpr hall) h
  · intro fqdn domain r
    exact ⟨domain, rfl⟩

open micetro bluecatmicetro in
/-- Witness for C8 (amended) on catalog `{example.com}` and FQDN `x.org`. -/
theorem zone_not_found_characterisation_witness :
    (∃ d, Present (some [str "example.com"]) (str "x.org") (str "x.org")
        (Except.ok ()) = Except.error (ProviderError.zoneNotFound d)) ↔
      ∀ w ∈ [str "example.com"],
        hasSuffix (trimSuffix (str "x.org") ['.']) w = false :=
  zone_not_found_characterisation.1 [str "example.com"] (str "x.org")
    (str "x.org") (Except.ok ()) (by decide)

namespace digitalocean

/-- The fallback deletion loop only removes records: every survivor was
already in the backend table. -/
lemma scanDelete_subset (f : Str) (snap : List Record) :
    ∀ (backend : List Record) (r : Record),
      r ∈ scanDelete f snap backend → r ∈ backend := by
  induction snap with
  | nil =>
    intro backend r hr
    simpa [scanDelete] using hr
  | cons s ss ih =>
    intro backend r hr
    simp only [scanDelete] at hr
    by_cases hm : s.type = str "TXT" ∧ s.name = f
    · rw [if_pos hm] at hr
      exact List.mem_of_mem_filter (ih _ r hr)
    · rw [if_neg hm] at hr
      exact ih _ r hr

/-- If every matching record still present in the backend occurs in the
remaining snapshot, then after the loop no matching record survives. -/
lemma scanDelete_no_match (f : Str) (snap : List Record) :
    ∀ (backend : List Record),
      (∀ r ∈ backend, r.type = str "TXT" ∧ r.name = f → r ∈ snap) →
      ∀ r ∈ scanDelete f snap backend, ¬(r.type = str "TXT" ∧ r.name = f) := by
  induction snap with
  | nil =>
    intro backend hinv r hr hm
    have hrb : r ∈ backend := by simpa [scanDelete] using hr
    exact absurd (hinv r hrb hm) (List.not_mem_nil r)
  | cons s ss ih =>
    intro backend hinv r hr
    simp only [scanDelete] at hr
    by_cases hm : s.type = str "TXT" ∧ s.name = f
    · rw [if_pos hm] at hr
      refine ih (removeTxtRecord backend s.id) ?_ r hr
      intro x hx hxm
      have hxb : x ∈ backend := List.mem_of_mem_filter hx
      have hxid : x.id ≠ s.id :=
        of_decide_eq_true (List.mem_filter.mp hx).2
      rcases List.mem_cons.mp (hinv x hxb hxm) with rfl | hx2
      · exact absurd rfl hxid
      · exact hx2
    · rw [if_neg hm] at hr
      refine ih backend ?_ r hr
      intro x hx hxm
      rcases List.mem_cons.mp (hinv x hx hxm) with rfl | hx2
      · exact absurd hxm hm
      · exact hx2

end digitalocean

/-- C3: whenever `Present` succeeds, the record map holds an entry for the
token whose value is exactly the record identifier the backend returned from
the create-record call — for the digitalocean provider (`part_000`) and for
the ovh provider alike. -/
theorem present_stores_backend_record_id :
    (∀ (zoneResult : Option Str) (addResult : Except Unit Int)
        (st : RecordStore) (token : Str) (st' : RecordStore),
      digitalocean.Present zoneResult addResult st token = Except.ok st' →
      ∃ id, addResult = Except.ok id ∧ st' token = some id) ∧
    (∀ (zoneResult subDomainResult : Option Str)
        (createResult : Except Unit Int) (refreshResult : Except Unit Unit)
        (st : RecordStore) (token : Str) (st' : RecordStore),
      ovh.Present zoneResult subDomainResult createResult refreshResult st
          token = Except.ok st' →
      ∃ id, createResult = Except.ok id ∧ st' token = some id) := by
  constructor
  · intro zoneResult addResult st token st' h
    cases zoneResult with
    | none => simp [digitalocean.Present] at h
    | some z =>
      cases addResult with
      | error e => simp [digitalocean.Present] at h
      | ok id =>
        refine ⟨id, rfl, ?_⟩
        simp only [digitalocean.Present] at h
        injection h with h1
        rw [← h1]
        simp [storeInsert]
  · intro zoneResult subDomainResult createResult refreshResult st token st' h
    cases zoneResult with
    | none => simp [ovh.Present] at h
    | some z =>
      cases subDomainResult with
      | none => simp [ovh.Present] at h
      | some sub =>
        cases createResult with
        | error e => simp [ovh.Present] at h
        | ok id =>
          cases refreshResult with
          | error e => simp [ovh.Present] at h
          | ok u =>
            refine ⟨id, rfl, ?_⟩
            simp only [ovh.Present] at h
            injection h with h1
            rw [← h1]
            simp [storeInsert]

/-- Witness for C3: a successful digitalocean `Present` with backend record
identifier 42 leaves the map sending the token to 42. -/
theorem present_stores_backend_record_id_witness :
    ∃ id, (Except.ok 42 : Except Unit Int) = Except.ok id ∧
      storeInsert emptyStore (str "tokenA") 42 (str "tokenA") = some id :=
  present_stores_backend_record_id.1 (some (str "example.com"))
    (Except.ok 42) emptyStore (str "tokenA")
    (storeInsert emptyStore (str "tokenA") 42) rfl

/-- C4: `CleanUp` (digitalocean provider, `part_000`) always performs the
fallback scan, whatever the record map holds for the token — in any
successful run, no TXT record whose name matches the effective FQDN survives
in the backend, tracked identifier or not (in particular for the empty map
of a restarted process). -/
theorem cleanup_scan_deletes_all_matching (zoneResult : Option Str)
    (fqdn : Str) (st : RecordStore) (token : Str)
    (backend : List digitalocean.Record) (st' : RecordStore)
    (backend' : List digitalocean.Record)
    (h : digitalocean.CleanUp zoneResult fqdn st token backend =
      Except.ok (st', backend')) :
    ∀ r ∈ backend', ¬(r.type = str "TXT" ∧ r.name = fqdn) := by
  cases zoneResult with
  | none => simp [digitalocean.CleanUp] at h
  | some z =>
    cases hst : st token with
    | none =>
      simp only [digitalocean.CleanUp, hst] at h
      injection h with h1
      rw [Prod.mk.injEq] at h1
      obtain ⟨h1, h2⟩ := h1
      rw [← h2]
      exact digitalocean.scanDelete_no_match fqdn backend backend
        (fun r hr _ => hr)
    | some id =>
      simp only [digitalocean.CleanUp, hst] at h
      injection h with h1
      rw [Prod.mk.injEq] at h1
      obtain ⟨h1, h2⟩ := h1
      rw [← h2]
      exact digitalocean.scanDelete_no_match fqdn
        (digitalocean.removeTxtRecord backend id)
        (digitalocean.removeTxtRecord backend id) (fun r hr _ => hr)

/-- Witness for C4: with an empty record map (restarted process), cleaning
up a backend holding a matching TXT record and an unrelated record deletes
the match; the surviving unrelated record is indeed not a matching TXT
record. -/
theorem cleanup_scan_deletes_all_matching_witness :
    ¬((⟨2, str "A", str "f"⟩ : digitalocean.Record).type = str "TXT" ∧
      (⟨2, str "A", str "f"⟩ : digitalocean.Record).name = str "f") :=
  cleanup_scan_deletes_all_matching (some (str "z")) (str "f") emptyStore
    (str "tokenA")
    [⟨1, str "TXT", str "f"⟩, ⟨2, str "A", str "f"⟩] emptyStore
    [⟨2, str "A", str "f"⟩] rfl ⟨2, str "A", str "f"⟩ (by decide)

/-- C5 (amended): in the digitalocean provider (`part_000`), a successful
`CleanUp` for a token with a tracked identifier deletes the record with that
identifier and removes the map entry, which is absent afterwards.  (The ovh
provider does not satisfy the original claim; see the counterexample.) -/
theorem cleanup_tracked_delete_removes_entry (zoneResult : Option Str)
    (fqdn : Str) (st : RecordStore) (token : Str) (id : Int)
    (backend : List digitalocean.Record) (st' : RecordStore)
    (backend' : List digitalocean.Record)
    (htrack : st token = some id)
    (h : digitalocean.CleanUp zoneResult fqdn st token backend =
      Except.ok (st', backend')) :
    st' token = none ∧ ∀ r ∈ backend', r.id ≠ id := by
  cases zoneResult with
  | none => simp [digitalocean.CleanUp] at h
  | some z =>
    simp only [digitalocean.CleanUp, htrack] at h
    injection h with h1
    rw [Prod.mk.injEq] at h1
    obtain ⟨h1, h2⟩ := h1
    constructor
    · rw [← h1]
      simp [storeErase]
    · intro r hr
      rw [← h2] at hr
      have hrm : r ∈ digitalocean.removeTxtRecord backend id :=
        digitalocean.scanDelete_subset fqdn _ _ r hr
      exact of_decide_eq_true (List.mem_filter.mp hrm).2

/-- Witness for C5 (amended): token tracked with identifier 7; after
cleanup the map entry is gone and the backend holds no record with id 7. -/
theorem cleanup_tracked_delete_removes_entry_witness :
    storeErase (storeInsert emptyStore (str "tokenA") 7) (str "tokenA")
        (str "tokenA") = none ∧
      ∀ r ∈ ([] : List digitalocean.Record), r.id ≠ 7 :=
  cleanup_tracked_delete_removes_entry (some (str "z")) (str "f")
    (storeInsert emptyStore (str "tokenA") 7) (str "tokenA") 7
    [⟨7, str "TXT", str "f"⟩]
    (storeErase (storeInsert emptyStore (str "tokenA") 7) (str "tokenA")) []
    rfl rfl

/-- C5 counterexample: the ovh `CleanUp` succeeds while leaving the tracked
entry in the record map untouched — with the token tracked as identifier 42,
after a successful `CleanUp` the map still sends the token to 42, so the
entry is not absent as the claim requires. -/
theorem ovh_cleanup_keeps_tracked_entry :
    ovh.CleanUp (some (str "example.com")) (some (str "_acme-challenge"))
        (Except.ok ()) (storeInsert emptyStore (str "tokenA") 42)
        (str "tokenA") [] =
      Except.ok (storeInsert emptyStore (str "tokenA") 42,
        ([] : List ovh.Record)) ∧
    storeInsert emptyStore (str "tokenA") 42 (str "tokenA") = some 42 :=
  ⟨rfl, rfl⟩

/-- C6: `Client.DeleteTXTRecord` (micetro package) succeeds exactly when the
backend answers with a success status (below 300) or with 404 (not found);
equivalently, it errors exactly on a non-success status other than
not-found, for every zone and name. -/
theorem delete_treats_not_found_as_success :
    ∀ (zone name : Str) (status : Nat),
      micetro.DeleteTXTRecord zone name status = Except.ok () ↔
        status < 300 ∨ status = 404 := by
  intro zone name status
  simp only [micetro.DeleteTXTRecord]
  by_cases h : 300 ≤ status ∧ status ≠ 404
  · rw [if_pos h]
    constructor
    · intro h0
      cases h0
    · intro h0
      exact absurd h0 (by omega)
  · rw [if_neg h]
    constructor
    · intro _
      by_contra h0
      push_neg at h0
      exact h ⟨by omega, by omega⟩
    · intro _
      rfl

/-- C7 (amended): the ovh constructor rejects — with a configuration error
and no provider value — every configuration selecting at least two of its
three authentication schemes (application-key credentials, OAuth2, access
token).  (The bluecatmicetro constructor accepts an API key together with a
username/password pair; see the counterexample.) -/
theorem ovh_config_rejects_multiple_schemes :
    ∀ (c : ovh.Config) (clientResult : Except Unit Unit),
      2 ≤ ovh.schemeCount c →
      ∃ e, ovh.NewDNSProviderConfig (some c) clientResult =
        Except.error e := by
  intro c clientResult hcount
  cases hA : ovh.hasAppKeyAuth c <;> cases hO : c.oauth2.isSome <;>
    cases hT : c.accessToken.isEmpty <;>
      simp [ovh.schemeCount, hA, hO, hT] at hcount <;>
        simp [ovh.NewDNSProviderConfig, hA, hO, hT]

/-- Witness for C7 (amended): application key plus access token set. -/
theorem ovh_config_rejects_multiple_schemes_witness :
    ∃ e, ovh.NewDNSProviderConfig
        (some ⟨str "appkey", [], [], none, str "token"⟩) (Except.ok ()) =
      Except.error e :=
  ovh_config_rejects_multiple_schemes
    ⟨str "appkey", [], [], none, str "token"⟩ (Except.ok ()) (by decide)

/-- C7 counterexample: the bluecatmicetro constructor accepts a
configuration that selects two authentication schemes at once — an API key
together with a username/password pair — and produces a provider instead of
returning a configuration error. -/
theorem bluecat_config_accepts_two_schemes :
    bluecatmicetro.NewDNSProviderConfig (str "https://micetro.example")
      (str "key") (str "user") (str "pass") = Except.ok () :=
  rfl

namespace login

lemma upd_same {α : Type} (f : Bool → α) (t : Bool) (v : α) : upd f t v t = v := by
  simp [upd]

lemma upd_other {α : Type} (f : Bool → α) (t : Bool) (v : α) (u : Bool)
    (h : u ≠ t) : upd f t v u = f u := by
  simp [upd, h]

/-- Mutual exclusion: while the lock is held by `t`, no other thread is
inside the critical section (pcs 1 to 4). -/
lemma lock_unique {resp : Str} {s : State} (hinv : Inv resp s) {t u : Bool}
    (hlt : s.lock = some t) (h1 : 1 ≤ s.pc u) (h4 : s.pc u ≤ 4) : u = t := by
  have h2 := hinv.hcs u h1 h4
  rw [hlt] at h2
  injection h2 with h3
  exact h3.symm

/-- While `t` holds the lock over an empty cache, no other thread has
performed the exchange. -/
lemma no_other_exch {resp : Str} {s : State} (hresp : resp ≠ [])
    (hinv : Inv resp s) {t : Bool} (hlockt : s.lock = some t)
    (hk : s.key = []) (u : Bool) (hut : u ≠ t) (hx : s.exch u = true) :
    False := by
  have h3 := hinv.hexch_pc u hx
  by_cases h4 : s.pc u ≤ 4
  · exact hut (lock_unique hinv hlockt (by omega) h4)
  · have h5 : 4 ≤ s.pc u := by omega
    have h6 := hinv.hpast u h5
    rw [hk] at h6
    exact hresp h6.symm

/-- The invariant holds in the initial state. -/
lemma inv_init (resp : Str) : Inv resp initState := by
  refine ⟨?_, ?_, ?_, ?_, ?_, ?_, ?_, ?_, ?_⟩
  · intro t h1 _
    simp [initState] at h1
  · exact Or.inl rfl
  · intro t h
    simp [initState] at h
  · intro t h
    simp [initState] at h
  · intro t h
    simp [initState] at h
  · intro h
    exact absurd rfl h
  · intro t h
    simp [initState] at h
  · intro h
    simp [initState] at h
  · intro t h
    simp [initState] at h

/-- Acquiring the free mutex preserves the invariant. -/
lemma inv_step_lock (resp : Str) (t : Bool) (s : State) (hinv : Inv resp s)
    (hpc : s.pc t = 0) (hl : s.lock = none) :
    Inv resp { s with lock := some t, pc := upd s.pc t 1 } := by
  refine ⟨?_, hinv.hkey, ?_, ?_, ?_, ?_, ?_, hinv.honce, ?_⟩ <;> dsimp only
  · intro u hu1 hu4
    by_cases hut : u = t
    · subst hut
      rfl
    · rw [upd_other s.pc t 1 u hut] at hu1 hu4
      have hx := hinv.hcs u hu1 hu4
      rw [hl] at hx
      cases hx
  · intro u hx
    by_cases hut : u = t
    · subst hut
      have h3 := hinv.hexch_pc u hx
      rw [hpc] at h3
      exact absurd h3 (by decide)
    · rw [upd_other s.pc t 1 u hut]
      exact hinv.hexch_pc u hx
  · intro u hu
    by_cases hut : u = t
    · subst hut
      rw [upd_same] at hu
      exact absurd hu (by decide)
    · rw [upd_other s.pc t 1 u hut] at hu
      exact hinv.hwindow u hu
  · intro u hu
    by_cases hut : u = t
    · subst hut
      rw [upd_same] at hu
      exact absurd hu (by decide)
    · rw [upd_other s.pc t 1 u hut] at hu
      exact hinv.hpast u hu
  · intro hne
    obtain ⟨w, hw1, hw2⟩ := hinv.hwrote hne
    by_cases hwt : w = t
    · subst hwt
      rw [hpc] at hw2
      exact absurd hw2 (by decide)
    · refine ⟨w, hw1, ?_⟩
      rw [upd_other s.pc t 1 w hwt]
      exact hw2
  · intro u hu
    by_cases hut : u = t
    · subst hut
      rw [upd_same] at hu
      exact absurd hu (by decide)
    · rw [upd_other s.pc t 1 u hut] at hu
      exact hinv.hpc3 u hu
  · intro u hu
    by_cases hut : u = t
    · subst hut
      rw [upd_same] at hu
      exact absurd hu (by decide)
    · rw [upd_other s.pc t 1 u hut] at hu
      exact hinv.hobs u hu

/-- The early-return check on an empty cache moves into the exchange and
preserves the invariant. -/
lemma inv_step_check_empty (resp : Str) (t : Bool) (s : State)
    (hinv : Inv resp s) (hpc : s.pc t = 1) (hk : s.key = []) :
    Inv resp { s with pc := upd s.pc t 2 } := by
  have hlockt : s.lock = some t :=
    hinv.hcs t (by rw [hpc]) (by rw [hpc]; decide)
  refine ⟨?_, hinv.hkey, ?_, ?_, ?_, ?_, ?_, hinv.honce, ?_⟩ <;> dsimp only
  · intro u hu1 hu4
    by_cases hut : u = t
    · subst hut
      exact hlockt
    · rw [upd_other s.pc t 2 u hut] at hu1 hu4
      exact absurd (lock_unique hinv hlockt hu1 hu4) hut
  · intro u hx
    by_cases hut : u = t
    · subst hut
      have h3 := hinv.hexch_pc u hx
      rw [hpc] at h3
      exact absurd h3 (by decide)
    · rw [upd_other s.pc t 2 u hut]
      exact hinv.hexch_pc u hx
  · intro u _
    exact hk
  · intro u hu
    by_cases hut : u = t
    · subst hut
      rw [upd_same] at hu
      exact absurd hu (by decide)
    · rw [upd_other s.pc t 2 u hut] at hu
      exact hinv.hpast u hu
  · intro hne
    exact absurd hk hne
  · intro u hu
    by_cases hut : u = t
    · subst hut
      rw [upd_same] at hu
      exact absurd hu (by decide)
    · rw [upd_other s.pc t 2 u hut] at hu
      exact hinv.hpc3 u hu
  · intro u hu
    by_cases hut : u = t
    · subst hut
      rw [upd_same] at hu
      exact absurd hu (by decide)
    · rw [upd_other s.pc t 2 u hut] at hu
      exact hinv.hobs u hu

/-- The early-return check on a nonempty cache skips the exchange entirely
and preserves the invariant. -/
lemma inv_step_check_cached (resp : Str) (t : Bool) (s : State)
    (hinv : Inv resp s) (hpc : s.pc t = 1) (hk : ¬s.key = []) :
    Inv resp { s with pc := upd s.pc t 4 } := by
  have hlockt : s.lock = some t :=
    hinv.hcs t (by rw [hpc]) (by rw [hpc]; decide)
  have hkresp : s.key = resp := (hinv.hkey).resolve_left hk
  refine ⟨?_, hinv.hkey, ?_, ?_, ?_, ?_, ?_, hinv.honce, ?_⟩ <;> dsimp only
  · intro u hu1 hu4
    by_cases hut : u = t
    · subst hut
      exact hlockt
    · rw [upd_other s.pc t 4 u hut] at hu1 hu4
      exact absurd (lock_unique hinv hlockt hu1 hu4) hut
  · intro u hx
    by_cases hut : u = t
    · subst hut
      rw [upd_same]
      decide
    · rw [upd_other s.pc t 4 u hut]
      exact hinv.hexch_pc u hx
  · intro u hu
    by_cases hut : u = t
    · subst hut
      rw [upd_same] at hu
      exact absurd hu (by decide)
    · rw [upd_other s.pc t 4 u hut] at hu
      exact hinv.hwindow u hu
  · intro u _
    exact hkresp
  · intro hne
    obtain ⟨w, hw1, hw2⟩ := hinv.hwrote hne
    by_cases hwt : w = t
    · subst hwt
      rw [hpc] at hw2
      exact absurd hw2 (by decide)
    · refine ⟨w, hw1, ?_⟩
      rw [upd_other s.pc t 4 w hwt]
      exact hw2
  · intro u hu
    by_cases hut : u = t
    · subst hut
      rw [upd_same] at hu
      exact absurd hu (by decide)
    · rw [upd_other s.pc t 4 u hut] at hu
      exact hinv.hpc3 u hu
  · intro u hu
    by_cases hut : u = t
    · subst hut
      rw [upd_same] at hu
      exact absurd hu (by decide)
    · rw [upd_other s.pc t 4 u hut] at hu
      exact hinv.hobs u hu

/-- The HTTP login exchange step (performed with the lock held over an empty
cache) preserves the invariant; in particular it cannot be a second
exchange. -/
lemma inv_step_exchange (resp : Str) (hresp : resp ≠ []) (t : Bool)
    (s : State) (hinv : Inv resp s) (hpc : s.pc t = 2) :
    Inv resp { s with exch := upd s.exch t true, pc := upd s.pc t 3 } := by
  have hlockt : s.lock = some t :=
    hinv.hcs t (by rw [hpc]; decide) (by rw [hpc]; decide)
  have hk : s.key = [] := hinv.hwindow t (Or.inl hpc)
  refine ⟨?_, hinv.hkey, ?_, ?_, ?_, ?_, ?_, ?_, ?_⟩ <;> dsimp only
  · intro u hu1 hu4
    by_cases hut : u = t
    · subst hut
      exact hlockt
    · rw [upd_other s.pc t 3 u hut] at hu1 hu4
      exact absurd (lock_unique hinv hlockt hu1 hu4) hut
  · intro u hx
    by_cases hut : u = t
    · subst hut
      rw [upd_same]
    · rw [upd_other s.pc t 3 u hut]
      rw [upd_other s.exch t true u hut] at hx
      exact hinv.hexch_pc u hx
  · intro u _
    exact hk
  · intro u hu
    by_cases hut : u = t
    · subst hut
      rw [upd_same] at hu
      exact absurd hu (by decide)
    · rw [upd_other s.pc t 3 u hut] at hu
      exact hinv.hpast u hu
  · intro hne
    exact absurd hk hne
  · intro u hu
    by_cases hut : u = t
    · subst hut
      rw [upd_same]
    · rw [upd_other s.pc t 3 u hut] at hu
      rw [upd_other s.exch t true u hut]
      exact hinv.hpc3 u hu
  · rintro ⟨hT, hF⟩
    cases t with
    | true =>
      rw [upd_other s.exch true true false (by decide)] at hF
      exact no_other_exch hresp hinv hlockt hk false (by decide) hF
    | false =>
      rw [upd_other s.exch false true true (by decide)] at hT
      exact no_other_exch hresp hinv hlockt hk true (by decide) hT
  · intro u hu
    by_cases hut : u = t
    · subst hut
      rw [upd_same] at hu
      exact absurd hu (by decide)
    · rw [upd_other s.pc t 3 u hut] at hu
      exact hinv.hobs u hu

/-- The cache write `c.sessionKey = resp` preserves the invariant. -/
lemma inv_step_write (resp : Str) (t : Bool) (s : State) (hinv : Inv resp s)
    (hpc : s.pc t = 3) :
    Inv resp { s with key := resp, pc := upd s.pc t 4 } := by
  have hlockt : s.lock = some t :=
    hinv.hcs t (by rw [hpc]; decide) (by rw [hpc]; decide)
  have hext : s.exch t = true := hinv.hpc3 t hpc
  refine ⟨?_, Or.inr rfl, ?_, ?_, ?_, ?_, ?_, hinv.honce, ?_⟩ <;> dsimp only
  · intro u hu1 hu4
    by_cases hut : u = t
    · subst hut
      exact hlockt
    · rw [upd_other s.pc t 4 u hut] at hu1 hu4
      exact absurd (lock_unique hinv hlockt hu1 hu4) hut
  · intro u hx
    by_cases hut : u = t
    · subst hut
      rw [upd_same]
      decide
    · rw [upd_other s.pc t 4 u hut]
      exact hinv.hexch_pc u hx
  · intro u hu
    by_cases hut : u = t
    · subst hut
      rw [upd_same] at hu
      exact absurd hu (by decide)
    · rw [upd_other s.pc t 4 u hut] at hu
      have h1 : 1 ≤ s.pc u := by omega
      have h4 : s.pc u ≤ 4 := by omega
      exact absurd (lock_unique hinv hlockt h1 h4) hut
  · intro u _
    rfl
  · intro _
    refine ⟨t, hext, ?_⟩
    rw [upd_same]
  · intro u hu
    by_cases hut : u = t
    · subst hut
      rw [upd_same] at hu
      exact absurd hu (by decide)
    · rw [upd_other s.pc t 4 u hut] at hu
      exact hinv.hpc3 u hu
  · intro u hu
    by_cases hut : u = t
    · subst hut
      rw [upd_same] at hu
      exact absurd hu (by decide)
    · rw [upd_other s.pc t 4 u hut] at hu
      exact hinv.hobs u hu

/-- Releasing the mutex preserves the invariant. -/
lemma inv_step_unlock (resp : Str) (t : Bool) (s : State) (hinv : Inv resp s)
    (hpc : s.pc t = 4) :
    Inv resp { s with lock := none, pc := upd s.pc t 5 } := by
  have hlockt : s.lock = some t :=
    hinv.hcs t (by rw [hpc]; decide) (by rw [hpc])
  have hkresp : s.key = resp := hinv.hpast t (by rw [hpc])
  refine ⟨?_, hinv.hkey, ?_, ?_, ?_, ?_, ?_, hinv.honce, ?_⟩ <;> dsimp only
  · intro u hu1 hu4
    by_cases hut : u = t
    · subst hut
      rw [upd_same] at hu4
      exact absurd hu4 (by decide)
    · rw [upd_other s.pc t 5 u hut] at hu1 hu4
      exact absurd (lock_unique hinv hlockt hu1 hu4) hut
  · intro u hx
    by_cases hut : u = t
    · subst hut
      rw [upd_same]
      decide
    · rw [upd_other s.pc t 5 u hut]
      exact hinv.hexch_pc u hx
  · intro u hu
    by_cases hut : u = t
    · subst hut
      rw [upd_same] at hu
      exact absurd hu (by decide)
    · rw [upd_other s.pc t 5 u hut] at hu
      exact hinv.hwindow u hu
  · intro u hu
    by_cases hut : u = t
    · subst hut
      exact hkresp
    · rw [upd_other s.pc t 5 u hut] at hu
      exact hinv.hpast u hu
  · intro hne
    obtain ⟨w, hw1, hw2⟩ := hinv.hwrote hne
    by_cases hwt : w = t
    · subst hwt
      refine ⟨w, hw1, ?_⟩
      rw [upd_same]
      decide
    · refine ⟨w, hw1, ?_⟩
      rw [upd_other s.pc t 5 w hwt]
      exact hw2
  · intro u hu
    by_cases hut : u = t
    · subst hut
      rw [upd_same] at hu
      exact absurd hu (by decide)
    · rw [upd_other s.pc t 5 u hut] at hu
      exact hinv.hpc3 u hu
  · intro u hu
    by_cases hut : u = t
    · subst hut
      rw [upd_same] at hu
      exact absurd hu (by decide)
    · rw [upd_other s.pc t 5 u hut] at hu
      exact hinv.hobs u hu

/-- The credential read in `doRequest` records the cached key — by then
necessarily `resp` — as the observation of the thread, preserving the
invariant. -/
lemma inv_step_read (resp : Str) (t : Bool) (s : State) (hinv : Inv resp s)
    (hpc : s.pc t = 5) :
    Inv resp { s with obs := upd s.obs t s.key, pc := upd s.pc t 6 } := by
  have hkresp : s.key = resp := hinv.hpast t (by rw [hpc]; decide)
  refine ⟨?_, hinv.hkey, ?_, ?_, ?_, ?_, ?_, hinv.honce, ?_⟩ <;> dsimp only
  · intro u hu1 hu4
    by_cases hut : u = t
    · subst hut
      rw [upd_same] at hu4
      exact absurd hu4 (by decide)
    · rw [upd_other s.pc t 6 u hut] at hu1 hu4
      exact hinv.hcs u hu1 hu4
  · intro u hx
    by_cases hut : u = t
    · subst hut
      rw [upd_same]
      decide
    · rw [upd_other s.pc t 6 u hut]
      exact hinv.hexch_pc u hx
  · intro u hu
    by_cases hut : u = t
    · subst hut
      rw [upd_same] at hu
      exact absurd hu (by decide)
    · rw [upd_other s.pc t 6 u hut] at hu
      exact hinv.hwindow u hu
  · intro u hu
    by_cases hut : u = t
    · subst hut
      exact hkresp
    · rw [upd_other s.pc t 6 u hut] at hu
      exact hinv.hpast u hu
  · intro hne
    obtain ⟨w, hw1, hw2⟩ := hinv.hwrote hne
    by_cases hwt : w = t
    · subst hwt
      refine ⟨w, hw1, ?_⟩
      rw [upd_same]
      decide
    · refine ⟨w, hw1, ?_⟩
      rw [upd_other s.pc t 6 w hwt]
      exact hw2
  · intro u hu
    by_cases hut : u = t
    · subst hut
      rw [upd_same] at hu
      exact absurd hu (by decide)
    · rw [upd_other s.pc t 6 u hut] at hu
      exact hinv.hpc3 u hu
  · intro u hu
    by_cases hut : u = t
    · subst hut
      rw [upd_same]
      exact hkresp
    · rw [upd_other s.pc t 6 u hut] at hu
      rw [upd_other s.obs t s.key u hut]
      exact hinv.hobs u hu

/-- Any single instruction of either thread preserves the invariant. -/
lemma inv_preserved (resp : Str) (hresp : resp ≠ []) (t : Bool) (s : State)
    (hinv : Inv resp s) : Inv resp (tryStep resp t s) := by
  by_cases h0 : s.pc t = 0
  · cases hl : s.lock with
    | none =>
      have heq : tryStep resp t s = { s with lock := some t, pc := upd s.pc t 1 } := by
        simp [tryStep, h0, hl]
      rw [heq]
      exact inv_step_lock resp t s hinv h0 hl
    | some v =>
      have heq : tryStep resp t s = s := by
        simp [tryStep, h0, hl]
      rw [heq]
      exact hinv
  · by_cases h1 : s.pc t = 1
    · by_cases hk : s.key = []
      · have heq : tryStep resp t s = { s with pc := upd s.pc t 2 } := by
          simp [tryStep, h0, h1, hk]
        rw [heq]
        exact inv_step_check_empty resp t s hinv h1 hk
      · have heq : tryStep resp t s = { s with pc := upd s.pc t 4 } := by
          simp [tryStep, h0, h1, hk]
        rw [heq]
        exact inv_step_check_cached resp t s hinv h1 hk
    · by_cases h2 : s.pc t = 2
      · have heq : tryStep resp t s =
            { s with exch := upd s.exch t true, pc := upd s.pc t 3 } := by
          simp [tryStep, h0, h1, h2]
        rw [heq]
        exact inv_step_exchange resp hresp t s hinv h2
      · by_cases h3 : s.pc t = 3
        · have heq : tryStep resp t s =
              { s with key := resp, pc := upd s.pc t 4 } := by
            simp [tryStep, h0, h1, h2, h3]
          rw [heq]
          exact inv_step_write resp t s hinv h3
        · by_cases h4 : s.pc t = 4
          · have heq : tryStep resp t s =
                { s with lock := none, pc := upd s.pc t 5 } := by
              simp [tryStep, h0, h1, h2, h3, h4]
            rw [heq]
            exact inv_step_unlock resp t s hinv h4
          · by_cases h5 : s.pc t = 5
            · have heq : tryStep resp t s =
                  { s with obs := upd s.obs t s.key, pc := upd s.pc t 6 } := by
                simp [tryStep, h0, h1, h2, h3, h4, h5]
              rw [heq]
              exact inv_step_read resp t s hinv h5
            · have heq : tryStep resp t s = s := by
                simp [tryStep, h0, h1, h2, h3, h4, h5]
              rw [heq]
              exact hinv

/-- The invariant holds after running any schedule from any state
satisfying it. -/
lemma inv_exec (resp : Str) (hresp : resp ≠ []) (sched : List Bool) :
    ∀ (s : State), Inv resp s → Inv resp (exec resp sched s) := by
  induction sched with
  | nil =>
    intro s h
    exact h
  | cons a l ih =>
    intro s h
    exact ih (tryStep resp a s) (inv_preserved resp hresp a s h)

end login

open login in
/-- C9: in the two-thread interleaving model of `Client.login` /
`Client.doRequest` — where the mutex-guarded instructions of the login body
are the atomic steps and the schedule is arbitrary — if both threads start
on an empty credential cache and run to completion against a backend whose
login response is the nonempty session key `resp`, then exactly one login
exchange is performed and both threads observe the same cached credential
`resp`. -/
theorem concurrent_login_single_exchange :
    ∀ (resp : Str) (sched : List Bool), resp ≠ [] →
      (exec resp sched initState).pc true = 6 →
      (exec resp sched initState).pc false = 6 →
      exchCount (exec resp sched initState) = 1 ∧
        (exec resp sched initState).obs true = resp ∧
        (exec resp sched initState).obs false = resp := by
  intro resp sched hresp h1 h2
  have hinv := inv_exec resp hresp sched initState (inv_init resp)
  set s := exec resp sched initState with hs
  have hkey : s.key = resp := hinv.hpast true (by rw [h1]; decide)
  have hkne : s.key ≠ [] := by
    rw [hkey]
    exact hresp
  obtain ⟨w, hw1, hw2⟩ := hinv.hwrote hkne
  refine ⟨?_, hinv.hobs true h1, hinv.hobs false h2⟩
  cases w with
  | true =>
    cases hf : s.exch false with
    | false => simp [exchCount, hw1, hf]
    | true => exact absurd ⟨hw1, hf⟩ hinv.honce
  | false =>
    cases hf : s.exch true with
    | false => simp [exchCount, hw1, hf]
    | true => exact absurd ⟨hf, hw1⟩ hinv.honce

open login in
/-- Witness for C9: thread A runs its six instructions first, then thread B
runs its four (lock, cached check, unlock, read); one exchange happens and
both observe the session key. -/
theorem concurrent_login_single_exchange_witness :
    exchCount (exec (str "sess")
        [true, true, true, true, true, true, false, false, false, false]
        initState) = 1 ∧
      (exec (str "sess")
        [true, true, true, true, true, true, false, false, false, false]
        initState).obs true = str "sess" ∧
      (exec (str "sess")
        [true, true, true, true, true, true, false, false, false, false]
        initState).obs false = str "sess" :=
  concurrent_login_single_exchange (str "sess")
    [true, true, true, true, true, true, false, false, false, false]
    (by decide) (by decide) (by decide)
